import Mathlib

/-!
# Verification of the "Kolo štěstí" (Wheel of Fortune) game engine

A shallow embedding of `src/main.py` (a console Wheel-of-Fortune game):
the data model (`WheelSegment`, `Player`, game state), the pure helpers
(`obscure_phrase`, move validation, the computer player's policy) and the
main game loop, modelled as a step function on an explicit state record.

Randomness is modelled by passing the random draws as explicit arguments:
`random.randint(1, 10)` becomes a `draw : Nat` argument (intended range
1..10), `random.choice(xs)` becomes an index argument reduced mod the
length of `xs`.  Python exceptions (`ValueError` from the `WheelResult`
enum constructor, `IndexError` from `random.choice([])`) are modelled by
`Option`.  Python sets of single-character strings become `List Char`
with set-style insertion.
-/

namespace KoloStesti

/-- Python constant `LETTERS = 'ABCDEFGHIJKLMNOPQRSTUVWXYZ'` (main.py line 9). -/
def LETTERS : List Char := "ABCDEFGHIJKLMNOPQRSTUVWXYZ".data

/-- Python constant `VOWELS = 'AEIOU'` (main.py line 10). -/
def VOWELS : List Char := "AEIOU".data

/-- Python constant `VOWEL_COST = 250` (main.py line 11). -/
def VOWEL_COST : Int := 250

/-- The `WheelResult` enum (main.py lines 14-17). -/
inductive WheelResult where
  | BANKRUPT
  | LOSE_TURN
  | CASH
deriving DecidableEq, Repr

/-- Models `WheelResult(type)`: the enum lookup by value string.  An unknown
value raises `ValueError` in Python, modelled by `none`. -/
def WheelResult.ofString : String → Option WheelResult
  | "bankrupt" => some .BANKRUPT
  | "loseturn" => some .LOSE_TURN
  | "cash" => some .CASH
  | _ => none

/-- Segment record `WheelSegment` (main.py lines 20-25). -/
structure WheelSegment where
  text : String
  type : WheelResult
  value : Int
  prize : String
deriving DecidableEq, Repr

/-- Models `WheelSegment.__init__(text, type, value=0, prize='')` (main.py lines
21-25): the only validation is `WheelResult(type)`, which fails (Python
`ValueError`, here `none`) on an unknown type string.  `value` is stored
unchecked. -/
def WheelSegment.make (text : String) (ty : String) (value : Int) (prize : String) :
    Option WheelSegment :=
  (WheelResult.ofString ty).map fun t => ⟨text, t, value, prize⟩

/-- Player state (main.py lines 28-32): `prize_money` starts at 0,
`prizes` starts empty. -/
structure Player where
  name : String
  prize_money : Int
  prizes : List String
deriving DecidableEq, Repr

/-- Models `Player.__init__(name)` (main.py lines 29-32). -/
def Player.make (name : String) : Player :=
  ⟨name, 0, []⟩

/-- Models `Player.add_money` (main.py lines 34-35). -/
def Player.add_money (p : Player) (amt : Int) : Player :=
  { p with prize_money := p.prize_money + amt }

/-- Models `Player.go_bankrupt` (main.py lines 37-38). -/
def Player.go_bankrupt (p : Player) : Player :=
  { p with prize_money := 0 }

/-- Models `Player.add_prize` (main.py lines 40-41; `prizes` is a Python set,
so insertion is idempotent). -/
def Player.add_prize (p : Player) (prize : String) : Player :=
  { p with prizes := if prize ∈ p.prizes then p.prizes else prize :: p.prizes }

/-- Models `spin_wheel(wheel) = random.choice(wheel)` (main.py lines 99-100),
with the random draw passed as an index `i` taken mod the length.
`random.choice([])` raises `IndexError`, modelled by `none` (for an empty
wheel `i % 0 = i` and the lookup is out of range). -/
def spin_wheel (wheel : List WheelSegment) (i : Nat) : Option WheelSegment :=
  wheel[i % wheel.length]?

/-- Models `get_random_category_and_phrase(phrases)` (main.py lines 115-117):
pick a category by index, then a phrase by index, and uppercase the
phrase.  `random.choice` on an empty key list or empty phrase list raises
`IndexError`, modelled by `none`. -/
def get_random_category_and_phrase (phrases : List (String × List String))
    (ci pi : Nat) : Option (String × String) :=
  match phrases[ci % phrases.length]? with
  | none => none
  | some cp =>
    match cp.2[pi % cp.2.length]? with
    | none => none
    | some p => some (cp.1, p.toUpper)

/-- Models `obscure_phrase(phrase, guessed)` (main.py lines 120-121):
`''.join('_' if c in LETTERS and c not in guessed else c for c in phrase)`. -/
def obscure_phrase (phrase : String) (guessed : List Char) : String :=
  ⟨phrase.data.map fun c => if c ∈ LETTERS ∧ c ∉ guessed then '_' else c⟩

/-- The acceptance test inside `request_player_move` (main.py lines
131-132): `move in {'EXIT', 'PASS'} or (len(move) == 1 and move in
LETTERS and move not in guessed and (move not in VOWELS or
player.prize_money >= VOWEL_COST))`.  A length-1 string is identified
with its single character. -/
def is_valid_move (move : String) (guessed : List Char) (prize_money : Int) : Bool :=
  decide (move = "EXIT") || decide (move = "PASS") ||
    match move.data with
    | [c] =>
      decide (c ∈ LETTERS) && decide (c ∉ guessed) &&
        (decide (c ∉ VOWELS) || decide (VOWEL_COST ≤ prize_money))
    | _ => false

/-- Models `request_player_move` (main.py lines 128-134), which loops, asking the
player for raw moves, until one passes `is_valid_move`; rejected moves
are reported (`'Neplatný tah!'`) and re-prompted.  Modelled over the
stream of raw answers the player would give: the result is the first
answer passing validation (`none` = the loop never returns on this
stream). -/
def request_player_move_result (attempts : List String) (guessed : List Char)
    (prize_money : Int) : Option String :=
  attempts.find? fun m => is_valid_move m guessed prize_money

/-- Frequency ranking `ComputerPlayer.SORTED_FREQUENCIES` (main.py line 55). -/
def SORTED_FREQUENCIES : List Char := "ZQXJKVBPYGFWMUCLDRHSNIOATE".data

/-- Models `ComputerPlayer.smart_coin_flip` (main.py lines 61-62):
`random.randint(1, 10) > self.difficulty`, with the draw explicit. -/
def smart_coin_flip (difficulty : Nat) (draw : Nat) : Bool :=
  decide (difficulty < draw)

/-- Models `ComputerPlayer.get_possible_letters` (main.py lines 64-65):
`[l for l in LETTERS if l not in guessed and (l not in VOWELS or
self.prize_money >= VOWEL_COST)]`. -/
def get_possible_letters (guessed : List Char) (prize_money : Int) : List Char :=
  LETTERS.filter fun l =>
    decide (l ∉ guessed) && (decide (l ∉ VOWELS) || decide (VOWEL_COST ≤ prize_money))

/-- The sort key `lambda x: self.SORTED_FREQUENCIES.index(x)` (main.py
line 71) as a relation: Python's `sorted` orders by nondecreasing key.
(All letters occur in `SORTED_FREQUENCIES`, so `index` never raises.) -/
def freqLe (a b : Char) : Prop :=
  SORTED_FREQUENCIES.indexOf a ≤ SORTED_FREQUENCIES.indexOf b

instance : DecidableRel freqLe := fun _a _b => Nat.decLe _ _

instance : IsTotal Char freqLe := ⟨fun _a _b => Nat.le_total _ _⟩

instance : IsTrans Char freqLe := ⟨fun _ _ _ => Nat.le_trans⟩

/-- Models `ComputerPlayer.get_move` (main.py lines 67-72): with no possible
letters return `'PASS'`; otherwise, if the smart coin flip succeeds,
take the last element of the possible letters sorted by frequency rank
(`sorted(...)[-1]`), else a uniformly random possible letter
(`random.choice`, modelled by `randIdx` mod the length). -/
def computer_get_move (guessed : List Char) (prize_money : Int)
    (difficulty draw randIdx : Nat) : String :=
  let letters_to_guess := get_possible_letters guessed prize_money
  if letters_to_guess.isEmpty then "PASS"
  else if smart_coin_flip difficulty draw then
    ⟨[(letters_to_guess.insertionSort freqLe).getLastD 'A']⟩
  else
    ⟨[letters_to_guess.getD (randIdx % letters_to_guess.length) 'A']⟩

/-- The mutable state of the game loop in `main` (main.py lines 154-189):
`category`/`phrase` from setup, the shared `guessed` set, the player
list, `player_index`, `winner` (as an index into `players`), and a flag
recording that the loop was left by the `'EXIT'` `return` (line 178). -/
structure GameState where
  category : String
  phrase : String
  guessed : List Char
  players : List Player
  player_index : Nat
  winner : Option Nat
  exited : Bool
deriving DecidableEq, Repr

/-- The state at the top of the game loop (main.py lines 156-158):
fresh players, empty guessed set, `player_index = 0`, no winner. -/
def initState (names : List String) (category phrase : String) : GameState :=
  { category := category
    phrase := phrase
    guessed := []
    players := names.map Player.make
    player_index := 0
    winner := none
    exited := false }

/-- The prize money of `players[player_index]` (0 if the index is out of
range, which never happens in a real game). -/
def currentMoney (s : GameState) : Int :=
  match s.players[s.player_index]? with
  | some p => p.prize_money
  | none => 0

/-- Models `player_index = (player_index + 1) % len(players)` (main.py line 189). -/
def advanceTurn (s : GameState) : GameState :=
  { s with player_index := (s.player_index + 1) % s.players.length }

/-- Mutate `players[player_index]` in place (Python aliasing of
`player = players[player_index]`, main.py line 162). -/
def updateCurrent (s : GameState) (f : Player → Player) : GameState :=
  match s.players[s.player_index]? with
  | some p => { s with players := s.players.set s.player_index (f p) }
  | none => s

/-- One iteration of the `while not winner` loop (main.py lines 161-189),
for a spun `wheel_result` and the (already validated) `move` returned by
`request_player_move`.  On `BANKRUPT` the current player is bankrupted
with no move requested; on `LOSE_TURN` nothing changes; otherwise the
move is applied: `'EXIT'` returns from `main`, `'PASS'` just ends the
turn, a single character is added to `guessed` with a win check, any
other move wins iff it equals the phrase.  `break` (win) skips the
index advance; a finished game (`winner` set or exited) steps to itself. -/
def step (s : GameState) (wheel_result : WheelResult) (move : String) : GameState :=
  if s.winner.isSome || s.exited then s
  else
    match wheel_result with
    | .BANKRUPT => advanceTurn (updateCurrent s Player.go_bankrupt)
    | .LOSE_TURN => advanceTurn s
    | .CASH =>
      if move = "EXIT" then { s with exited := true }
      else if move = "PASS" then advanceTurn s
      else
        match move.data with
        | [c] =>
          let guessed' := if c ∈ s.guessed then s.guessed else c :: s.guessed
          if obscure_phrase s.phrase guessed' = s.phrase then
            { s with guessed := guessed', winner := some s.player_index }
          else advanceTurn { s with guessed := guessed' }
        | _ =>
          if move = s.phrase then { s with winner := some s.player_index }
          else advanceTurn s

/-- States reachable by the game loop from `s0`, each move having passed
`request_player_move`'s validation against the current player's money. -/
inductive Reachable (s0 : GameState) : GameState → Prop where
  | refl : Reachable s0 s0
  | step (s : GameState) (w : WheelResult) (move : String)
      (hs : Reachable s0 s)
      (hv : is_valid_move move s.guessed (currentMoney s) = true) :
      Reachable s0 (step s w move)

/-- Iterate the game loop, spinning a `CASH` segment for each listed
move in turn (used for the end-to-end `"HELLO WORLD"` scenario). -/
def runMoves (s : GameState) (moves : List String) : GameState :=
  moves.foldl (fun t m => step t .CASH m) s

/-- A one-player game on the phrase `"HELLO WORLD"`; the player holds
500 Kč so that vowel guesses also pass move validation. -/
def helloState : GameState :=
  { initState ["Hráč"] "Pozdrav" "HELLO WORLD" with players := [⟨"Hráč", 500, []⟩] }

/-- The seven letter guesses of the end-to-end scenario. -/
def helloMoves : List String := ["H", "E", "L", "O", "W", "R", "D"]

/-- Checks that every move in the list, played in sequence on `CASH`
spins, passes `request_player_move`'s validation at the state where it
is played. -/
def movesAllValid (s : GameState) (moves : List String) : Bool :=
  (moves.foldl
    (fun acc m =>
      (acc.1 && is_valid_move m acc.2.guessed (currentMoney acc.2), step acc.2 .CASH m))
    (true, s)).1

/-! ## Helper lemmas -/

theorem mk_single_ne_EXIT (c : Char) : (⟨[c]⟩ : String) ≠ "EXIT" := by
  intro h
  have h2 : (1 : Nat) = 4 := congrArg (fun s => s.data.length) h
  exact absurd h2 (by decide)

theorem mk_single_ne_PASS (c : Char) : (⟨[c]⟩ : String) ≠ "PASS" := by
  intro h
  have h2 : (1 : Nat) = 4 := congrArg (fun s => s.data.length) h
  exact absurd h2 (by decide)

theorem PASS_ne_mk_single (c : Char) : ("PASS" : String) ≠ ⟨[c]⟩ :=
  fun h => mk_single_ne_PASS c h.symm

theorem mk_single_inj {c c' : Char} (h : (⟨[c]⟩ : String) = ⟨[c']⟩) : c = c' := by
  have h2 : ([c] : List Char) = [c'] := congrArg String.data h
  simpa using h2

/-- The validation test on a single-character move reduces to the
letter/guessed/vowel-affordability condition. -/
theorem is_valid_move_single (c : Char) (g : List Char) (m : Int) :
    is_valid_move ⟨[c]⟩ g m =
      (decide (c ∈ LETTERS) && decide (c ∉ g) &&
        (decide (c ∉ VOWELS) || decide (VOWEL_COST ≤ m))) := by
  unfold is_valid_move
  rw [decide_eq_false (mk_single_ne_EXIT c), decide_eq_false (mk_single_ne_PASS c)]
  simp

theorem mem_get_possible_letters {c : Char} {g : List Char} {money : Int} :
    c ∈ get_possible_letters g money ↔
      c ∈ LETTERS ∧ c ∉ g ∧ (c ∈ VOWELS → VOWEL_COST ≤ money) := by
  unfold get_possible_letters
  simp only [List.mem_filter, Bool.and_eq_true, Bool.or_eq_true, decide_eq_true_eq]
  constructor
  · rintro ⟨h1, h2, h3 | h3⟩
    · exact ⟨h1, h2, fun hv => absurd hv h3⟩
    · exact ⟨h1, h2, fun _ => h3⟩
  · rintro ⟨h1, h2, h3⟩
    by_cases hv : c ∈ VOWELS
    · exact ⟨h1, h2, Or.inr (h3 hv)⟩
    · exact ⟨h1, h2, Or.inl hv⟩

theorem getLastD_mem (l : List Char) (d : Char) (h : l ≠ []) : l.getLastD d ∈ l := by
  induction l generalizing d with
  | nil => exact absurd rfl h
  | cons a t ih =>
    rw [List.getLastD_cons]
    cases t with
    | nil => simp [List.getLastD]
    | cons b t' => exact List.mem_cons_of_mem a (ih a (by simp))

theorem freqLe_getLastD (l : List Char) (hs : l.Sorted freqLe) (x : Char)
    (hx : x ∈ l) (d : Char) : freqLe x (l.getLastD d) := by
  induction l generalizing d with
  | nil => simp at hx
  | cons a t ih =>
    rw [List.getLastD_cons]
    rcases List.mem_cons.1 hx with rfl | hxt
    · cases t with
      | nil => exact Nat.le_refl _
      | cons b t' =>
        have hmem := getLastD_mem (b :: t') x (by simp)
        exact (List.sorted_cons.1 hs).1 _ hmem
    · exact ih (List.sorted_cons.1 hs).2 hxt a

/-- Case split: `ComputerPlayer.get_move` returns either `'PASS'` (exactly when
there are no possible letters) or a single possible letter. -/
theorem computer_get_move_cases (g : List Char) (money : Int) (d draw r : Nat) :
    (get_possible_letters g money = [] ∧ computer_get_move g money d draw r = "PASS") ∨
    ∃ c ∈ get_possible_letters g money, computer_get_move g money d draw r = ⟨[c]⟩ := by
  unfold computer_get_move
  by_cases he : (get_possible_letters g money).isEmpty
  · exact Or.inl ⟨List.isEmpty_iff.1 he, by simp [he]⟩
  · right
    have hne : get_possible_letters g money ≠ [] := by
      simpa [List.isEmpty_iff] using he
    by_cases hs : smart_coin_flip d draw
    · refine ⟨((get_possible_letters g money).insertionSort freqLe).getLastD 'A',
        ?_, by simp [he, hs]⟩
      have hsne : (get_possible_letters g money).insertionSort freqLe ≠ [] := by
        intro h0
        exact hne ((h0 ▸ List.perm_insertionSort freqLe
          (get_possible_letters g money)).symm.eq_nil)
      exact (List.mem_insertionSort freqLe).1 (getLastD_mem _ 'A' hsne)
    · have hlt : r % (get_possible_letters g money).length <
          (get_possible_letters g money).length :=
        Nat.mod_lt _ (List.length_pos.2 hne)
      refine ⟨(get_possible_letters g money).getD
        (r % (get_possible_letters g money).length) 'A', ?_, by simp [he, hs]⟩
      rw [List.getD_eq_getElem _ _ hlt]
      exact List.getElem_mem hlt

/-! ## Claims -/

/-- C2: `obscure_phrase` is a pure function returning a string of the
same length as the phrase in which each character is replaced by `'_'`
iff it is one of the 26 letters A-Z and not guessed, all other
characters passing through unchanged at the same index; with no guesses
every letter is replaced, and with the full alphabet guessed the phrase
is returned verbatim. -/
theorem C2_obscure_contract (p : String) (g : List Char) :
    (obscure_phrase p g).length = p.length ∧
    (∀ i : Fin p.data.length,
      (obscure_phrase p g).data.getD i '_' =
        if p.data.get i ∈ LETTERS ∧ p.data.get i ∉ g then '_' else p.data.get i) ∧
    (∀ i : Fin p.data.length, p.data.get i ∈ LETTERS →
      (obscure_phrase p []).data.getD i '_' = '_') ∧
    obscure_phrase p LETTERS = p := by
  refine ⟨?_, ?_, ?_, ?_⟩
  · show (p.data.map _).length = p.data.length
    exact List.length_map _ _
  · intro i
    have hi : i.1 < (obscure_phrase p g).data.length := by
      show i.1 < (p.data.map _).length
      rw [List.length_map]
      exact i.2
    rw [List.getD_eq_getElem _ _ hi]
    simp [obscure_phrase, List.getElem_map]
  · intro i hmem
    have hi : i.1 < (obscure_phrase p []).data.length := by
      show i.1 < (p.data.map _).length
      rw [List.length_map]
      exact i.2
    rw [List.getD_eq_getElem _ _ hi]
    simp [obscure_phrase, List.getElem_map]
    intro h
    exact absurd hmem h
  · apply String.ext
    show p.data.map _ = p.data
    apply List.map_id''
    intro c
    by_cases hc : c ∈ LETTERS <;> simp [hc]

/-- C2 witness: concrete application of the contract. -/
theorem C2_obscure_contract_witness :
    (obscure_phrase "AB C" []).data.getD 0 '_' = '_' :=
  (C2_obscure_contract "AB C" []).2.2.1 ⟨0, by decide⟩ (by decide)

/-- C4: a single alphabetic character not already guessed is accepted
iff it is a consonant or an affordable vowel; an already-guessed letter
is rejected; rejected attempts are skipped by the validation loop, which
returns only accepted moves. -/
theorem C4_letter_validation (ch : Char) (g : List Char) (money : Int)
    (hch : ch ∈ LETTERS) :
    (ch ∉ g → (is_valid_move ⟨[ch]⟩ g money = true ↔
      (ch ∉ VOWELS ∨ VOWEL_COST ≤ money))) ∧
    (ch ∈ g → is_valid_move ⟨[ch]⟩ g money = false) ∧
    (∀ rest : List String, is_valid_move ⟨[ch]⟩ g money = false →
      request_player_move_result (⟨[ch]⟩ :: rest) g money =
        request_player_move_result rest g money) ∧
    (∀ attempts res, request_player_move_result attempts g money = some res →
      is_valid_move res g money = true) := by
  refine ⟨?_, ?_, ?_, ?_⟩
  · intro hg
    rw [is_valid_move_single]
    simp [hch, hg]
  · intro hg
    rw [is_valid_move_single]
    simp [hg]
  · intro rest hrej
    unfold request_player_move_result
    exact List.find?_cons_of_neg _ (by simp [hrej])
  · intro attempts res hfind
    unfold request_player_move_result at hfind
    have h3 := List.find?_some hfind
    simpa using h3

/-- C4 witness: the vowel `'A'` is accepted with money 250. -/
theorem C4_letter_validation_witness :
    is_valid_move ⟨['A']⟩ [] (250 : Int) = true :=
  ((C4_letter_validation 'A' [] 250 (by decide)).1 (by decide)).mpr
    (Or.inr (by decide))

/-- C5: for every guessed-letter set and money value, the computer
player's decision never proposes an already-guessed letter, never
proposes a vowel when money is below the vowel cost, and returns
`'PASS'` whenever the eligible set is empty. -/
theorem C5_computer_policy_safe (guessed : List Char) (money : Int)
    (difficulty draw randIdx : Nat) :
    (get_possible_letters guessed money = [] →
      computer_get_move guessed money difficulty draw randIdx = "PASS") ∧
    (∀ c : Char, computer_get_move guessed money difficulty draw randIdx = ⟨[c]⟩ →
      c ∉ guessed ∧ (c ∈ VOWELS → VOWEL_COST ≤ money)) := by
  constructor
  · intro he
    unfold computer_get_move
    simp [he]
  · intro c hc
    rcases computer_get_move_cases guessed money difficulty draw randIdx with
      ⟨_, hpass⟩ | ⟨c', hc', heq⟩
    · rw [hpass] at hc
      exact absurd hc (PASS_ne_mk_single c)
    · rw [heq] at hc
      obtain rfl := mk_single_inj hc
      have hmem := mem_get_possible_letters.1 hc'
      exact ⟨hmem.2.1, hmem.2.2⟩

/-- C5 witness: with nothing guessed and no money the smart computer
proposes `'T'`, which is unguessed and not an unaffordable vowel. -/
theorem C5_computer_policy_safe_witness :
    'T' ∉ ([] : List Char) ∧ ('T' ∈ VOWELS → VOWEL_COST ≤ (0 : Int)) :=
  (C5_computer_policy_safe [] 0 5 10 0).2 'T' (by decide)

/-- C8: the computer is smart iff the 1..10 draw strictly exceeds the
difficulty (so exactly `10 - difficulty` of the 10 equiprobable draws
are smart); when smart it picks the eligible letter ranked highest in
`SORTED_FREQUENCIES`, and when not smart it picks uniformly among the
eligible letters (each index is realised by the corresponding draw). -/
theorem C8_computer_choice (guessed : List Char) (money : Int)
    (difficulty draw randIdx : Nat) (hd1 : 1 ≤ difficulty) (hd10 : difficulty ≤ 10)
    (hne : get_possible_letters guessed money ≠ []) :
    (smart_coin_flip difficulty draw = true ↔ difficulty < draw) ∧
    ((Finset.Icc 1 10).filter (fun d => difficulty < d)).card = 10 - difficulty ∧
    (difficulty < draw →
      ∃ c, computer_get_move guessed money difficulty draw randIdx = ⟨[c]⟩ ∧
        c ∈ get_possible_letters guessed money ∧
        ∀ x ∈ get_possible_letters guessed money,
          SORTED_FREQUENCIES.indexOf x ≤ SORTED_FREQUENCIES.indexOf c) ∧
    (draw ≤ difficulty →
      ∀ j : Fin (get_possible_letters guessed money).length,
        computer_get_move guessed money difficulty draw j =
          ⟨[(get_possible_letters guessed money).get j]⟩) := by
  have hie : (get_possible_letters guessed money).isEmpty = false := by
    simp [List.isEmpty_iff, hne]
  refine ⟨by simp [smart_coin_flip], ?_, ?_, ?_⟩
  · clear hd1 hne hie
    interval_cases difficulty <;> decide
  · intro hdraw
    have hflip : smart_coin_flip difficulty draw = true := by
      simp [smart_coin_flip, hdraw]
    refine ⟨((get_possible_letters guessed money).insertionSort freqLe).getLastD 'A',
      ?_, ?_, ?_⟩
    · unfold computer_get_move
      simp [hie, hflip]
    · have hsne : (get_possible_letters guessed money).insertionSort freqLe ≠ [] := by
        intro h0
        exact hne ((h0 ▸ List.perm_insertionSort freqLe
          (get_possible_letters guessed money)).symm.eq_nil)
      exact (List.mem_insertionSort freqLe).1 (getLastD_mem _ 'A' hsne)
    · intro x hx
      exact freqLe_getLastD _ (List.sorted_insertionSort freqLe _) x
        ((List.mem_insertionSort freqLe).2 hx) 'A'
  · intro hdraw j
    have hflip : smart_coin_flip difficulty draw = false := by
      simp [smart_coin_flip]
      exact hdraw
    unfold computer_get_move
    simp only [hie, hflip, Bool.false_eq_true, if_false]
    have hmod : j.1 % (get_possible_letters guessed money).length = j.1 :=
      Nat.mod_eq_of_lt j.2
    rw [hmod, List.getD_eq_getElem _ _ j.2, List.get_eq_getElem]

/-- C8 witness: with nothing guessed, no money, difficulty 5 and draw
10 the pick is the most frequent eligible letter. -/
theorem C8_computer_choice_witness :
    ∃ c, computer_get_move [] 0 5 10 0 = ⟨[c]⟩ ∧ c ∈ get_possible_letters [] 0 ∧
      ∀ x ∈ get_possible_letters [] 0,
        SORTED_FREQUENCIES.indexOf x ≤ SORTED_FREQUENCIES.indexOf c :=
  (C8_computer_choice [] 0 5 10 0 (by decide) (by decide) (by decide)).2.2.1
    (by decide)

/-- Shape of one loop iteration: the phrase is untouched, the guessed
set is unchanged or extended by one letter, and the only player
mutation ever applied is `go_bankrupt`. -/
theorem step_cases (s : GameState) (w : WheelResult) (m : String) :
    (step s w m).phrase = s.phrase ∧
    ((step s w m).guessed = s.guessed ∨
      ∃ c, (step s w m).guessed = c :: s.guessed) ∧
    ∀ p ∈ (step s w m).players, p ∈ s.players ∨ ∃ q ∈ s.players, p = q.go_bankrupt := by
  unfold step
  by_cases hrun : s.winner.isSome || s.exited
  · rw [if_pos hrun]
    exact ⟨rfl, Or.inl rfl, fun p hp => Or.inl hp⟩
  · rw [if_neg hrun]
    cases w with
    | BANKRUPT =>
      unfold advanceTurn updateCurrent
      cases hq : s.players[s.player_index]? with
      | none => exact ⟨rfl, Or.inl rfl, fun p hp => Or.inl hp⟩
      | some q =>
        refine ⟨rfl, Or.inl rfl, fun p hp => ?_⟩
        rcases List.mem_or_eq_of_mem_set hp with h | h
        · exact Or.inl h
        · exact Or.inr ⟨q, List.getElem?_mem hq, h⟩
    | LOSE_TURN => exact ⟨rfl, Or.inl rfl, fun p hp => Or.inl hp⟩
    | CASH =>
      by_cases hex : m = "EXIT"
      · rw [if_pos hex]
        exact ⟨rfl, Or.inl rfl, fun p hp => Or.inl hp⟩
      · rw [if_neg hex]
        by_cases hpass : m = "PASS"
        · rw [if_pos hpass]
          exact ⟨rfl, Or.inl rfl, fun p hp => Or.inl hp⟩
        · rw [if_neg hpass]
          cases hmd : m.data with
          | nil =>
            dsimp only
            by_cases hph : m = s.phrase
            · rw [if_pos hph]
              exact ⟨rfl, Or.inl rfl, fun p hp => Or.inl hp⟩
            · rw [if_neg hph]
              exact ⟨rfl, Or.inl rfl, fun p hp => Or.inl hp⟩
          | cons c rest =>
            cases rest with
            | nil =>
              dsimp only
              by_cases hob : obscure_phrase s.phrase
                  (if c ∈ s.guessed then s.guessed else c :: s.guessed) = s.phrase
              · rw [if_pos hob]
                refine ⟨rfl, ?_, fun p hp => Or.inl hp⟩
                by_cases hc : c ∈ s.guessed
                · rw [if_pos hc]
                  exact Or.inl rfl
                · rw [if_neg hc]
                  exact Or.inr ⟨c, rfl⟩
              · rw [if_neg hob]
                refine ⟨rfl, ?_, fun p hp => Or.inl hp⟩
                by_cases hc : c ∈ s.guessed
                · rw [if_pos hc]
                  exact Or.inl rfl
                · rw [if_neg hc]
                  exact Or.inr ⟨c, rfl⟩
            | cons c' rest' =>
              dsimp only
              by_cases hph : m = s.phrase
              · rw [if_pos hph]
                exact ⟨rfl, Or.inl rfl, fun p hp => Or.inl hp⟩
              · rw [if_neg hph]
                exact ⟨rfl, Or.inl rfl, fun p hp => Or.inl hp⟩

/-- Every player surviving a step either was in the state already or
has been bankrupted, so zero prize money is preserved. -/
theorem step_money_zero {s : GameState} (hz : ∀ p ∈ s.players, p.prize_money = 0)
    (w : WheelResult) (m : String) :
    ∀ p ∈ (step s w m).players, p.prize_money = 0 := by
  intro p hp
  rcases (step_cases s w m).2.2 p hp with h | ⟨q, _, rfl⟩
  · exact hz p h
  · rfl

theorem step_guessed_mono (s : GameState) (w : WheelResult) (m : String) :
    ∀ c ∈ s.guessed, c ∈ (step s w m).guessed := by
  intro c hc
  rcases (step_cases s w m).2.1 with h | ⟨c', h⟩
  · rw [h]; exact hc
  · rw [h]; exact List.mem_cons_of_mem _ hc

/-- C7: a `BANKRUPT` spin zeroes the current player's money, requests
no move (the step does not depend on any move), leaves the phrase, the
guessed set, the category, the winner and all other players unchanged,
and advances the turn index mod the player count. -/
theorem C7_bankrupt_frame (s : GameState) (hw : s.winner = none)
    (hx : s.exited = false) (hi : s.player_index < s.players.length)
    (move move' : String) :
    (step s .BANKRUPT move).players[s.player_index]? =
      (s.players[s.player_index]?).map Player.go_bankrupt ∧
    (∀ j, j ≠ s.player_index →
      (step s .BANKRUPT move).players[j]? = s.players[j]?) ∧
    (step s .BANKRUPT move).phrase = s.phrase ∧
    (step s .BANKRUPT move).guessed = s.guessed ∧
    (step s .BANKRUPT move).category = s.category ∧
    (step s .BANKRUPT move).winner = none ∧
    (step s .BANKRUPT move).player_index = (s.player_index + 1) % s.players.length ∧
    step s .BANKRUPT move = step s .BANKRUPT move' := by
  have hq : s.players[s.player_index]? = some s.players[s.player_index] :=
    List.getElem?_eq_getElem hi
  have hrun : (s.winner.isSome || s.exited) = false := by
    rw [hw, hx]; rfl
  have hstep : ∀ mv : String, step s .BANKRUPT mv =
      advanceTurn { s with players := (s.players.set s.player_index
        (Player.go_bankrupt (s.players[s.player_index]))) } := by
    intro mv
    unfold step
    rw [hrun]
    simp only [Bool.false_eq_true, if_false]
    unfold updateCurrent
    rw [hq]
  rw [hstep move, hstep move']
  refine ⟨?_, ?_, rfl, rfl, rfl, hw, ?_, rfl⟩
  · show (s.players.set s.player_index _)[s.player_index]? = _
    rw [List.getElem?_set_self hi, hq]
    rfl
  · intro j hj
    show (s.players.set s.player_index _)[j]? = s.players[j]?
    exact List.getElem?_set_ne (Ne.symm hj)
  · show (s.player_index + 1) % (s.players.set _ _).length = _
    rw [List.length_set]

/-- C7 witness: the bankrupted player's record at the current index. -/
theorem C7_bankrupt_frame_witness :
    (step helloState .BANKRUPT "X").players[helloState.player_index]? =
      (helloState.players[helloState.player_index]?).map Player.go_bankrupt :=
  (C7_bankrupt_frame helloState rfl rfl (by decide) "X" "Y").1

/-- C6: an accepted single-letter guess adds the letter to the guessed
set, and the current player wins exactly when the obscured phrase then
equals the phrase; concretely, on `"HELLO WORLD"` the guesses
H,E,L,O,W,R,D (all validated in sequence) take the board from
`"_____ _____"` through `"HELLO WORL_"` to `"HELLO WORLD"`, the winner
being declared on the final guess and not before. -/
theorem C6_letter_guess (s : GameState) (hw : s.winner = none) (hx : s.exited = false)
    (c : Char) (hv : is_valid_move ⟨[c]⟩ s.guessed (currentMoney s) = true) :
    ((step s .CASH ⟨[c]⟩).guessed =
      if c ∈ s.guessed then s.guessed else c :: s.guessed) ∧
    ((step s .CASH ⟨[c]⟩).winner = some s.player_index ↔
      obscure_phrase s.phrase (if c ∈ s.guessed then s.guessed else c :: s.guessed) =
        s.phrase) ∧
    obscure_phrase "HELLO WORLD" helloState.guessed = "_____ _____" ∧
    movesAllValid helloState helloMoves = true ∧
    (runMoves helloState (helloMoves.take 6)).winner = none ∧
    obscure_phrase "HELLO WORLD" (runMoves helloState (helloMoves.take 6)).guessed =
      "HELLO WORL_" ∧
    (runMoves helloState helloMoves).winner = some 0 ∧
    obscure_phrase "HELLO WORLD" (runMoves helloState helloMoves).guessed =
      "HELLO WORLD" := by
  have hrun : (s.winner.isSome || s.exited) = false := by
    rw [hw, hx]; rfl
  have hstep : step s .CASH ⟨[c]⟩ =
      (if obscure_phrase s.phrase
          (if c ∈ s.guessed then s.guessed else c :: s.guessed) = s.phrase then
        { s with guessed := if c ∈ s.guessed then s.guessed else c :: s.guessed,
                 winner := some s.player_index }
      else advanceTurn
        { s with guessed := if c ∈ s.guessed then s.guessed else c :: s.guessed }) := by
    unfold step
    rw [hrun]
    simp only [Bool.false_eq_true, if_false]
    rw [if_neg (mk_single_ne_EXIT c), if_neg (mk_single_ne_PASS c)]
  refine ⟨?_, ?_, by decide, by decide, by decide, by decide, by decide, by decide⟩
  · rw [hstep]
    by_cases hob : obscure_phrase s.phrase
        (if c ∈ s.guessed then s.guessed else c :: s.guessed) = s.phrase
    · rw [if_pos hob]
    · rw [if_neg hob]
      rfl
  · rw [hstep]
    by_cases hob : obscure_phrase s.phrase
        (if c ∈ s.guessed then s.guessed else c :: s.guessed) = s.phrase
    · rw [if_pos hob]
      simp [hob]
    · rw [if_neg hob]
      dsimp only [advanceTurn]
      rw [hw]
      simp [hob]

/-- C6 witness: the first guess of the scenario lands in the guessed set. -/
theorem C6_letter_guess_witness :
    (step helloState .CASH ⟨['H']⟩).guessed =
      if 'H' ∈ helloState.guessed then helloState.guessed
      else 'H' :: helloState.guessed :=
  (C6_letter_guess helloState rfl rfl 'H' (by decide)).1

/-- C1: the move validation in `request_player_move` rejects a
full-phrase guess in every configuration (only `'EXIT'`, `'PASS'` and
fresh affordable single letters pass), so the validation loop skips it
and the `move == phrase` win branch of `main` can never be reached —
even though that branch, fed the full phrase directly, would indeed
declare the submitter winner with no letters guessed. -/
theorem C1_full_phrase_guess_dead :
    is_valid_move "HELLO WORLD" [] 0 = false ∧
    is_valid_move "HELLO WORLD" [] 1000000 = false ∧
    is_valid_move "HELLO WORLD" ['H', 'E', 'L', 'O', 'W', 'R', 'D'] 1000000 = false ∧
    request_player_move_result ["HELLO WORLD", "PASS"] [] 1000000 = some "PASS" ∧
    (step helloState .CASH "HELLO WORLD").winner = some 0 ∧
    (step helloState .CASH "HELLO WORLD").guessed = [] := by decide

/-- C3: in every state the game loop can reach, every player's prize
money is 0 (nothing in the loop ever adds money and bankruptcy only
zeroes it), so no vowel move of any player ever passes validation and
the computer never proposes a vowel. -/
theorem C3_money_always_zero (names : List String) (cat ph : String)
    (s : GameState) (h : Reachable (initState names cat ph) s) :
    (∀ p ∈ s.players, p.prize_money = 0) ∧
    (∀ v ∈ VOWELS, ∀ p ∈ s.players, ∀ g : List Char,
      is_valid_move ⟨[v]⟩ g p.prize_money = false) ∧
    (∀ v ∈ VOWELS, ∀ p ∈ s.players, ∀ g : List Char, ∀ d draw r : Nat,
      computer_get_move g p.prize_money d draw r ≠ ⟨[v]⟩) := by
  have hz : ∀ p ∈ s.players, p.prize_money = 0 := by
    induction h with
    | refl =>
      intro p hp
      obtain ⟨n, -, rfl⟩ := List.mem_map.1 hp
      rfl
    | step s' w mv hs hv ih => exact step_money_zero ih w mv
  refine ⟨hz, ?_, ?_⟩
  · intro v hvv p hp g
    rw [is_valid_move_single]
    rw [hz p hp]
    have h1 : decide (v ∉ VOWELS) = false := by simp [hvv]
    have h2 : decide (VOWEL_COST ≤ (0 : Int)) = false := by decide
    rw [h1, h2]
    simp
  · intro v hvv p hp g d draw r hcontra
    rcases computer_get_move_cases g p.prize_money d draw r with
      ⟨-, hpass⟩ | ⟨c', hc', heq⟩
    · rw [hpass] at hcontra
      exact PASS_ne_mk_single v hcontra
    · rw [heq] at hcontra
      obtain rfl := mk_single_inj hcontra
      have hm := (mem_get_possible_letters.1 hc').2.2 hvv
      rw [hz p hp] at hm
      exact absurd hm (by decide)

/-- C3 witness: in the start state the vowel `'A'` is rejected for the
(only) player. -/
theorem C3_money_always_zero_witness :
    is_valid_move ⟨['A']⟩ [] (Player.make "Hráčka").prize_money = false :=
  (C3_money_always_zero ["Hráčka"] "Kategorie" "AB" _ Reachable.refl).2.1
    'A' (by decide) (Player.make "Hráčka") (by decide) []

/-- C10: no step of the loop ever changes the phrase, the guessed set
only grows along every step and every reachable state, and the selected
phrase is the uppercased catalog entry. -/
theorem C10_phrase_constant_guessed_monotone :
    (∀ (s : GameState) (w : WheelResult) (m : String),
      (step s w m).phrase = s.phrase ∧ ∀ c ∈ s.guessed, c ∈ (step s w m).guessed) ∧
    (∀ s0 s : GameState, Reachable s0 s →
      s.phrase = s0.phrase ∧ ∀ c ∈ s0.guessed, c ∈ s.guessed) ∧
    (∀ (phrases : List (String × List String)) (ci pi : Nat) (cat ph : String),
      get_random_category_and_phrase phrases ci pi = some (cat, ph) →
      ∃ raw : String, ph = raw.toUpper) := by
  refine ⟨fun s w m => ⟨(step_cases s w m).1, step_guessed_mono s w m⟩, ?_, ?_⟩
  · intro s0 s h
    induction h with
    | refl => exact ⟨rfl, fun _ hc => hc⟩
    | step s' w mv hs hv ih =>
      exact ⟨(step_cases s' w mv).1.trans ih.1,
        fun c hc => step_guessed_mono s' w mv c (ih.2 c hc)⟩
  · intro phrases ci pi cat ph h
    unfold get_random_category_and_phrase at h
    revert h
    cases phrases[ci % phrases.length]? with
    | none => intro h; exact absurd h (by simp)
    | some cp =>
      intro h
      have h2 : (match cp.2[pi % cp.2.length]? with
          | none => (none : Option (String × String))
          | some p => some (cp.1, p.toUpper)) = some (cat, ph) := h
      revert h2
      cases cp.2[pi % cp.2.length]? with
      | none => intro h2; exact absurd h2 (by simp)
      | some p =>
        intro h2
        simp only [Option.some.injEq, Prod.mk.injEq] at h2
        exact ⟨p, h2.2.symm⟩

/-- C10 witness: one concrete step preserves the phrase. -/
theorem C10_phrase_constant_guessed_monotone_witness :
    (step helloState .CASH "PASS").phrase = helloState.phrase :=
  (C10_phrase_constant_guessed_monotone.1 helloState .CASH "PASS").1

/-- C9 counterexample: a wheel segment with a negative value is
constructed without any failure and can be spun, so the spin pipeline
does not fail on negative segment values. -/
theorem C9_negative_value_accepted :
    WheelSegment.make "Bankrot" "cash" (-5) "" = some ⟨"Bankrot", .CASH, -5, ""⟩ ∧
    spin_wheel [⟨"Bankrot", .CASH, -5, ""⟩] 0 = some ⟨"Bankrot", .CASH, -5, ""⟩ := by
  decide

/-- C9 (amended): segment construction fails exactly when the kind
string is outside the enumerated set (a plain `ValueError`, values are
never validated), the spin fails exactly on an empty wheel (an
`IndexError` from `random.choice`), and on a non-empty wheel every
segment is returned by the draw of its index. -/
theorem C9_wheel_errors (text ty : String) (v : Int) (pz : String)
    (wheel : List WheelSegment) (i : Nat) :
    (WheelSegment.make text ty v pz = none ↔
      ty ≠ "bankrupt" ∧ ty ≠ "loseturn" ∧ ty ≠ "cash") ∧
    (spin_wheel wheel i = none ↔ wheel = []) ∧
    (∀ j : Fin wheel.length, spin_wheel wheel j = some (wheel.get j)) := by
  refine ⟨?_, ?_, ?_⟩
  · unfold WheelSegment.make
    rw [Option.map_eq_none']
    unfold WheelResult.ofString
    split
    · simp_all
    · simp_all
    · simp_all
    · rename_i h1 h2 h3
      exact iff_of_true rfl ⟨h1, h2, h3⟩
  · constructor
    · intro h
      by_contra hne
      have hlt : i % wheel.length < wheel.length :=
        Nat.mod_lt _ (List.length_pos.2 hne)
      rw [spin_wheel, List.getElem?_eq_getElem hlt] at h
      exact Option.noConfusion h
    · rintro rfl
      simp [spin_wheel]
  · intro j
    have hmod : j.1 % wheel.length = j.1 := Nat.mod_eq_of_lt j.2
    rw [spin_wheel, hmod, List.getElem?_eq_getElem j.2, List.get_eq_getElem]

/-- C9 witness: the empty wheel fails to spin. -/
theorem C9_wheel_errors_witness : spin_wheel [] 0 = none :=
  (C9_wheel_errors "t" "cash" 0 "" [] 0).2.1.mpr rfl

end KoloStesti
